import Mathlib

/-!
Shallow embedding of the file-conversion service, checked against the
natural-language specification.

Modules embedded (names kept close to the JavaScript source):
* `ConvertJs`   — the `ConversionOrchestrator` of `src/The File/convert.js`:
  the bounded-concurrency job scheduler (`addJob`, `processQueue`, `runJob`),
  the strategy table (`selectStrategy`) and `performConversion`.
* `ConverterJs` — the `QuantumFileSystem` of `src/The File/converter.js`:
  `secureWrite` / `secureRead` over an abstract authenticated cipher.
* `CleanupJs`   — the `CosmicCleanup` and `StorageOptimizer` of
  `src/The File/cleanup.js`: `cleanDirectory`, `secureWipe`,
  `emergencyCleanup` and `deduplicateFiles`.
* `ServiceJs`   — `ConversionService.convertSingleFile` of the unnamed
  service module.

Machine integers are modelled as `Nat` (JavaScript numbers in the relevant
code are non-negative integers: lengths, timestamps, byte values); fallible
operations return `Except`/`Option`; the process-local mutable state of the
orchestrator is modelled as an explicit state type with a step relation.
-/

namespace ConvertJs

/-- State of the `ConversionOrchestrator` (convert.js, lines 19–53): jobs are
identified by their admission sequence number. `queue` models
`conversionQueue` (FIFO array), `active` models the id set of
`activeWorkers`, `done` records jobs whose worker slot was released, and
`nextId` is the number of jobs submitted so far. -/
structure SchedState where
  queue : List Nat
  active : List Nat
  done : List Nat
  nextId : Nat
deriving DecidableEq

/-- Default pool size: `process.env.MAX_PARALLEL_CONVERSIONS || 4`
(convert.js line 23) with the environment variable unset. -/
def defaultMaxParallel : Nat := 4

/-- The `processQueue` loop (convert.js lines 33–38): while a worker slot is
free and the queue is non-empty, shift the head job off the queue and start
it (in `runJob` the worker is registered in `activeWorkers` synchronously,
before the first await, so the admission counts against the pool at once). -/
def processQueue (maxParallel : Nat) : List Nat → List Nat → List Nat × List Nat
  | [], active => ([], active)
  | j :: rest, active =>
    if active.length < maxParallel then processQueue maxParallel rest (active ++ [j])
    else (j :: rest, active)

/-- The `addJob` entry point (convert.js lines 26–31): push the job onto the
queue, then run `processQueue`. -/
def addJob (maxParallel : Nat) (s : SchedState) : SchedState :=
  let p := processQueue maxParallel (s.queue ++ [s.nextId]) s.active
  ⟨p.1, p.2, s.done, s.nextId + 1⟩

/-- Slot release in `runJob`'s `finally` block (convert.js lines 49–52):
delete the worker from `activeWorkers`, then run `processQueue` again. -/
def completeJob (maxParallel : Nat) (j : Nat) (s : SchedState) : SchedState :=
  let p := processQueue maxParallel s.queue (s.active.erase j)
  ⟨p.1, p.2, j :: s.done, s.nextId⟩

/-- The orchestrator's constructor state: empty queue, no active workers. -/
def startState : SchedState := ⟨[], [], [], 0⟩

/-- One externally visible event of the orchestrator: a caller submits a job,
or a running job finishes (in any order — conversions are asynchronous). -/
inductive Step (maxParallel : Nat) : SchedState → SchedState → Prop
  | submit (s : SchedState) : Step maxParallel s (addJob maxParallel s)
  | complete (s : SchedState) (j : Nat) (hj : j ∈ s.active) :
      Step maxParallel s (completeJob maxParallel j s)

/-- States reachable from the freshly constructed orchestrator. -/
inductive Reachable (maxParallel : Nat) : SchedState → Prop
  | start : Reachable maxParallel startState
  | step {s t : SchedState} : Reachable maxParallel s → Step maxParallel s t →
      Reachable maxParallel t

/-- A job has been admitted into a worker slot at some point (it is either
running now or already finished). -/
def Started (s : SchedState) (j : Nat) : Prop := j ∈ s.active ∨ j ∈ s.done

/-- Scheduler invariant: the submitted jobs `0 .. nextId-1` split into the
already-admitted ids `0 .. m-1` and the still-queued ids `m .. nextId-1`,
kept in FIFO order, and the number of active workers never exceeds the pool
size. -/
def Inv (maxParallel : Nat) (s : SchedState) : Prop :=
  ∃ m, m ≤ s.nextId ∧ s.queue = List.range' m (s.nextId - m) ∧
    (∀ j, Started s j ↔ j < m) ∧ s.active.length ≤ maxParallel

theorem processQueue_eq (maxParallel : Nat) (q a : List Nat) :
    ∃ k, k ≤ q.length ∧
      processQueue maxParallel q a = (q.drop k, a ++ q.take k) := by
  induction q generalizing a with
  | nil => exact ⟨0, Nat.le_refl 0, by simp [processQueue]⟩
  | cons j rest ih =>
    by_cases h : a.length < maxParallel
    · obtain ⟨k, hk, he⟩ := ih (a ++ [j])
      refine ⟨k + 1, by simpa using Nat.succ_le_succ hk, ?_⟩
      simp only [processQueue, if_pos h, he, List.drop_succ_cons, List.take_succ_cons]
      simp
    · exact ⟨0, Nat.zero_le _, by simp [processQueue, if_neg h]⟩

theorem processQueue_length_le (maxParallel : Nat) (q : List Nat) :
    ∀ a : List Nat, a.length ≤ maxParallel →
      (processQueue maxParallel q a).2.length ≤ maxParallel := by
  induction q with
  | nil => intro a ha; simpa [processQueue] using ha
  | cons j rest ih =>
    intro a ha
    by_cases h : a.length < maxParallel
    · simp only [processQueue, if_pos h]
      exact ih (a ++ [j]) (by simpa using h)
    · simpa [processQueue, if_neg h] using ha

theorem take_range' (k m n : Nat) (hk : k ≤ n) :
    (List.range' m n).take k = List.range' m k := by
  induction k generalizing m n with
  | zero => simp
  | succ k ih =>
    cases n with
    | zero => omega
    | succ n =>
      rw [List.range'_succ, List.range'_succ, List.take_succ_cons,
        ih (m + 1) n (Nat.le_of_succ_le_succ hk)]

theorem drop_range' (k m n : Nat) :
    (List.range' m n).drop k = List.range' (m + k) (n - k) := by
  induction k generalizing m n with
  | zero => simp
  | succ k ih =>
    cases n with
    | zero => simp
    | succ n =>
      rw [List.range'_succ, List.drop_succ_cons, ih (m + 1) n]
      have h1 : m + 1 + k = m + k + 1 := by omega
      have h2 : n - k = n + 1 - (k + 1) := by omega
      rw [h1, h2]
      rfl

theorem inv_processQueue (maxParallel m nextId : Nat) (a d : List Nat)
    (hm : m ≤ nextId) (hs : ∀ j, (j ∈ a ∨ j ∈ d) ↔ j < m)
    (ha : a.length ≤ maxParallel) :
    ∃ m', m' ≤ nextId ∧
      (processQueue maxParallel (List.range' m (nextId - m)) a).1 =
        List.range' m' (nextId - m') ∧
      (∀ j, (j ∈ (processQueue maxParallel (List.range' m (nextId - m)) a).2 ∨
        j ∈ d) ↔ j < m') ∧
      (processQueue maxParallel (List.range' m (nextId - m)) a).2.length ≤
        maxParallel := by
  obtain ⟨k, hk, he⟩ := processQueue_eq maxParallel (List.range' m (nextId - m)) a
  rw [List.length_range'] at hk
  refine ⟨m + k, by omega, ?_, ?_, ?_⟩
  · rw [he, drop_range', Nat.sub_sub]
  · intro j
    rw [he]
    simp only [List.mem_append, take_range' k m (nextId - m) hk, List.mem_range'_1]
    have := hs j
    constructor
    · rintro (⟨hj | hj⟩ | hj)
      · have := this.1 (Or.inl hj); omega
      · omega
      · have := this.1 (Or.inr hj); omega
    · intro hj
      by_cases hjm : j < m
      · rcases this.2 hjm with h | h
        · exact Or.inl (Or.inl h)
        · exact Or.inr h
      · exact Or.inl (Or.inr ⟨by omega, by omega⟩)
  · rw [he]
    have h2 := processQueue_length_le maxParallel (List.range' m (nextId - m)) a ha
    rwa [he] at h2

theorem inv_addJob (maxParallel : Nat) (s : SchedState) (h : Inv maxParallel s) :
    Inv maxParallel (addJob maxParallel s) := by
  obtain ⟨m, hm, hq, hs, ha⟩ := h
  have hext : s.queue ++ [s.nextId] = List.range' m (s.nextId + 1 - m) := by
    rw [hq]
    have h1 : [s.nextId] = List.range' (m + 1 * (s.nextId - m)) 1 1 := by
      simp; omega
    rw [h1, List.range'_append]
    congr 1
    omega
  obtain ⟨m', hm', hq', hs', ha'⟩ :=
    inv_processQueue maxParallel m (s.nextId + 1) s.active s.done (by omega)
      hs ha
  refine ⟨m', hm', ?_, ?_, ?_⟩
  · show (processQueue maxParallel (s.queue ++ [s.nextId]) s.active).1 = _
    rw [hext]
    exact hq'
  · intro j
    show (j ∈ (processQueue maxParallel (s.queue ++ [s.nextId]) s.active).2 ∨
      j ∈ s.done) ↔ j < m'
    rw [hext]
    exact hs' j
  · show (processQueue maxParallel (s.queue ++ [s.nextId]) s.active).2.length ≤ _
    rw [hext]
    exact ha'

theorem inv_completeJob (maxParallel : Nat) (s : SchedState) (j : Nat)
    (hj : j ∈ s.active) (h : Inv maxParallel s) :
    Inv maxParallel (completeJob maxParallel j s) := by
  obtain ⟨m, hm, hq, hs, ha⟩ := h
  have hmem : ∀ i, (i ∈ s.active.erase j ∨ i ∈ j :: s.done) ↔ i < m := by
    intro i
    constructor
    · rintro (hi | hi)
      · exact (hs i).1 (Or.inl (List.mem_of_mem_erase hi))
      · rcases List.mem_cons.1 hi with rfl | hi
        · exact (hs i).1 (Or.inl hj)
        · exact (hs i).1 (Or.inr hi)
    · intro hi
      rcases (hs i).2 hi with hact | hdone
      · by_cases hij : i = j
        · exact Or.inr (hij ▸ List.mem_cons_self j s.done)
        · exact Or.inl ((List.mem_erase_of_ne hij).2 hact)
      · exact Or.inr (List.mem_cons_of_mem j hdone)
  have hlen : (s.active.erase j).length ≤ maxParallel :=
    Nat.le_trans (List.erase_sublist j s.active).length_le ha
  obtain ⟨m', hm', hq', hs', ha'⟩ :=
    inv_processQueue maxParallel m s.nextId (s.active.erase j) (j :: s.done)
      hm hmem hlen
  refine ⟨m', hm', ?_, ?_, ?_⟩
  · show (processQueue maxParallel s.queue (s.active.erase j)).1 = _
    rw [hq]
    exact hq'
  · intro i
    show (i ∈ (processQueue maxParallel s.queue (s.active.erase j)).2 ∨
      i ∈ j :: s.done) ↔ i < m'
    rw [hq]
    exact hs' i
  · show (processQueue maxParallel s.queue (s.active.erase j)).2.length ≤ _
    rw [hq]
    exact ha'

theorem reachable_inv (maxParallel : Nat) {s : SchedState}
    (h : Reachable maxParallel s) : Inv maxParallel s := by
  induction h with
  | start =>
    refine ⟨0, Nat.le_refl 0, by simp [startState], ?_, by simp [startState]⟩
    intro j
    simp [Started, startState]
  | @step s t _ hst ih =>
    cases hst with
    | submit => exact inv_addJob maxParallel s ih
    | complete j hj => exact inv_completeJob maxParallel s j hj ih

/-- C1: in every state the orchestrator can reach — whatever jobs are
submitted via `addJob` and in whatever order running jobs complete — the
number of entries in `activeWorkers` never exceeds the configured pool size
`maxParallel`. -/
theorem activeWorkers_le_maxParallel (maxParallel : Nat) (s : SchedState)
    (h : Reachable maxParallel s) : s.active.length ≤ maxParallel := by
  obtain ⟨_, _, _, _, hlen⟩ := reachable_inv maxParallel h
  exact hlen

/-- Closed-form check of C1 at a concrete reachable state (one submitted job,
default pool size). -/
theorem activeWorkers_le_maxParallel_witness :
    (addJob defaultMaxParallel startState).active.length ≤ defaultMaxParallel :=
  activeWorkers_le_maxParallel defaultMaxParallel _
    (Reachable.step Reachable.start (Step.submit _))

/-- C9: admission is first-in-first-out — in every reachable state, if the
later-submitted of two jobs has been admitted to a worker slot, so has the
earlier-submitted one; and completion order is unconstrained: every running
job can be the next to complete (and is then reported by its own
resolve/reject). -/
theorem admission_fifo (maxParallel : Nat) (s : SchedState)
    (h : Reachable maxParallel s) :
    (∀ i j, i < j → Started s j → Started s i) ∧
    (∀ j ∈ s.active, Step maxParallel s (completeJob maxParallel j s)) := by
  obtain ⟨m, _, _, hs, _⟩ := reachable_inv maxParallel h
  constructor
  · intro i j hij hj
    exact (hs i).2 (Nat.lt_of_lt_of_le hij (Nat.le_of_lt ((hs j).1 hj)))
  · intro j hj
    exact Step.complete s j hj

/-- Closed-form check of C9 at a concrete reachable state: after two
submissions, job 1 is admitted, hence so is job 0. -/
theorem admission_fifo_witness :
    Started (addJob defaultMaxParallel (addJob defaultMaxParallel startState)) 0 :=
  (admission_fifo defaultMaxParallel _
      (Reachable.step (Reachable.step Reachable.start (Step.submit _))
        (Step.submit _))).1
    0 1 (by omega) (Or.inl (by decide))

/-- Target-format table `imageFormats` of `selectStrategy` (convert.js line 100). -/
def imageFormats : List String := ["jpg", "png", "webp", "avif", "gif"]

/-- Target-format table `videoFormats` (convert.js line 101). -/
def videoFormats : List String := ["mp4", "mov", "avi", "webm", "gif"]

/-- Target-format table `audioFormats` (convert.js line 102). -/
def audioFormats : List String := ["mp3", "wav", "ogg", "flac"]

/-- Target-format table `docFormats` (convert.js line 103). -/
def docFormats : List String := ["pdf", "docx", "txt"]

/-- The `selectStrategy` method (convert.js lines 99–111): a chain of
`includes` tests on the requested target format, returning the name of the
engine to invoke, or throwing `No strategy for <format>`. Note the
`fileType` parameter, like in the source, is never consulted. -/
def selectStrategy (fileType targetFormat : String) : Except String String :=
  if targetFormat ∈ imageFormats then .ok "sharp"
  else if targetFormat ∈ videoFormats ∨ targetFormat ∈ audioFormats then .ok "ffmpeg"
  else if targetFormat ∈ docFormats then .ok "libreoffice"
  else if targetFormat = "txt" then .ok "ocr"
  else .error ("No strategy for " ++ targetFormat)

/-- A fragment of the file system: an association list from paths to byte
contents (at most one entry per path is ever used). -/
abbrev FS := List (String × List Nat)

/-- Path lookup (`fs.stat` / reading a file). -/
def fsLookup : FS → String → Option (List Nat)
  | [], _ => none
  | e :: rest, p => if e.1 = p then some e.2 else fsLookup rest p

/-- Removal of the entry at path `p`: the effect of a `fs.unlink(p)` call
that succeeds (removing an absent path is modelled as a no-op). A failing
unlink is modelled separately, by `fsUnlinkTry`. -/
def fsUnlink : FS → String → FS
  | [], _ => []
  | e :: rest, p => if e.1 = p then fsUnlink rest p else e :: fsUnlink rest p

/-- The effect of writing a file at path `p` with content `c`. -/
def fsWrite (fs : FS) (p : String) (c : List Nat) : FS := (p, c) :: fsUnlink fs p

/-- The cleanup call `fs.unlink(outputPath).catch(() => {})`
(convert.js line 94): the unlink itself may fail — `unlinkErr p` gives the
failure, if any — and its rejection is swallowed by the `.catch`, leaving
the file in place; only a successful unlink removes the entry. -/
def fsUnlinkTry (fs : FS) (p : String) (unlinkErr : String → Option String) : FS :=
  match unlinkErr p with
  | none => fsUnlink fs p
  | some _ => fs

/-- Outcome of one invocation of an external codec engine (sharp, ffmpeg,
LibreOffice, OCR). On failure the engine may have left some half-written
bytes at the output path (`leftover`), or nothing at all. The engines are
external capabilities (spec section 6), so their behaviour is a parameter of
the model. -/
inductive EngineOutcome where
  | success (output : List Nat)
  | failure (err : String) (leftover : Option (List Nat))

/-- The record returned by a successful `performConversion`
(convert.js lines 84–92), restricted to the fields the claims mention. -/
structure ConvResult where
  convertedPath : String
  format : String
  size : Nat
deriving DecidableEq

/-- The `performConversion` method (convert.js lines 55–97). Inputs: the
result of `fileTypeFromFile` (which can itself fail), the requested target
format, the fresh uuid output path, the behaviour of the external engines,
the behaviour of the cleanup unlink (which may itself fail, its rejection
swallowed), and the current file system. Output: the resulting file system,
the list of engines that were invoked, and the job's result. On an engine
failure the `catch` block attempts to unlink the output path before
re-throwing. -/
def performConversion (mimeRes : Except String String)
    (targetFormat outputPath : String) (engine : String → EngineOutcome)
    (unlinkErr : String → Option String) (fs : FS) :
    FS × List String × Except String ConvResult :=
  match mimeRes with
  | .error e => (fs, [], .error e)
  | .ok mime =>
    match selectStrategy ((mime.splitOn "/").headD "") targetFormat with
    | .error e => (fs, [], .error e)
    | .ok strat =>
      match engine strat with
      | .success out =>
        (fsWrite fs outputPath out, [strat],
          .ok ⟨outputPath, targetFormat, out.length⟩)
      | .failure err leftover =>
        let fs1 := match leftover with
          | some c => fsWrite fs outputPath c
          | none => fs
        (fsUnlinkTry fs1 outputPath unlinkErr, [strat], .error err)

theorem fsLookup_fsUnlink (fs : FS) (p : String) :
    fsLookup (fsUnlink fs p) p = none := by
  induction fs with
  | nil => rfl
  | cons e rest ih =>
    by_cases h : e.1 = p
    · simpa [fsUnlink, h] using ih
    · simpa [fsUnlink, fsLookup, h] using ih

/-- C2 counterexample: a request with an audio-category source and the
document target format `pdf` is not rejected — `selectStrategy` ignores the
source category, resolves to `libreoffice`, and `performConversion` invokes
the LibreOffice engine. -/
theorem audio_to_pdf_invokes_libreoffice :
    selectStrategy "audio" "pdf" = .ok "libreoffice" ∧
    (performConversion (.ok "audio/mpeg") "pdf" "out.pdf"
      (fun _ => .success [0]) (fun _ => none) []).2.1 = ["libreoffice"] := by
  exact ⟨rfl, rfl⟩

/-- C2 (amended): strategy selection depends only on the target format, never
on the source category; a request fails immediately — with the error
`No strategy for <format>`, no engine invoked and the file system
untouched — exactly when the target format is in none of the
image/video/audio/document format lists. -/
theorem unsupported_target_fails_without_engine
    (fileType₁ fileType₂ mime targetFormat outputPath : String)
    (engine : String → EngineOutcome) (unlinkErr : String → Option String)
    (fs : FS)
    (h : targetFormat ∉ imageFormats ++ videoFormats ++ audioFormats ++ docFormats) :
    selectStrategy fileType₁ targetFormat = selectStrategy fileType₂ targetFormat ∧
    (performConversion (.ok mime) targetFormat outputPath engine unlinkErr fs).2.1 = [] ∧
    (performConversion (.ok mime) targetFormat outputPath engine unlinkErr fs).2.2 =
      .error ("No strategy for " ++ targetFormat) ∧
    (performConversion (.ok mime) targetFormat outputPath engine unlinkErr fs).1 = fs := by
  have h1 : targetFormat ∉ imageFormats := fun hx => h (by simp [hx])
  have h2 : targetFormat ∉ videoFormats := fun hx => h (by simp [hx])
  have h3 : targetFormat ∉ audioFormats := fun hx => h (by simp [hx])
  have h4 : targetFormat ∉ docFormats := fun hx => h (by simp [hx])
  have htxt : targetFormat ≠ "txt" := by
    intro heq
    exact h4 (heq ▸ (by decide : ("txt" : String) ∈ docFormats))
  have hsel : ∀ ft, selectStrategy ft targetFormat =
      .error ("No strategy for " ++ targetFormat) := by
    intro ft
    simp [selectStrategy, h1, h2, h3, h4, htxt]
  refine ⟨by rw [hsel, hsel], ?_, ?_, ?_⟩ <;>
    simp [performConversion, hsel]

/-- Closed-form check of C2's amended statement: target format `xyz` is
supported by no engine, so the request fails with no engine invocation. -/
theorem unsupported_target_fails_without_engine_witness :
    (performConversion (.ok "audio/mpeg") "xyz" "out"
      (fun _ => .success [0]) (fun _ => none) []).2.2 =
      .error ("No strategy for " ++ "xyz") :=
  (unsupported_target_fails_without_engine "audio" "video" "audio/mpeg" "xyz"
    "out" (fun _ => .success [0]) (fun _ => none) [] (by decide)).2.2.1

/-- C3 counterexample: the cleanup is best-effort, because the rejection of
`fs.unlink(outputPath)` is swallowed by `.catch(() => {})`. When the engine
failure leaves half-written bytes at the output path and the unlink itself
then fails, the job surfaces its error — and the slot is subsequently
released in `runJob`'s `finally` — while the partial output is still present
at the job's intended output path. -/
theorem failed_unlink_leaves_partial_output :
    (performConversion (.ok "audio/mpeg") "pdf" "o"
      (fun _ => .failure "engine crashed" (some [1, 2]))
      (fun _ => some "EPERM") []).2.2 = .error "engine crashed" ∧
    fsLookup (performConversion (.ok "audio/mpeg") "pdf" "o"
      (fun _ => .failure "engine crashed" (some [1, 2]))
      (fun _ => some "EPERM") []).1 "o" = some [1, 2] := by
  exact ⟨rfl, rfl⟩

/-- C3 (amended): whenever a job's conversion fails — mime detection error,
no strategy, or an engine failure that may have half-written the output —
the `catch` block attempts to delete the output path before re-throwing, and
the slot is only released afterwards in `runJob`'s `finally`; whenever that
unlink succeeds, no file exists at the job's intended output path (a fresh
uuid name, hence absent beforehand) in the file system returned together
with the surfaced error. If the unlink itself fails, its rejection is
swallowed and the partial output survives the failed job (see the
counterexample). -/
theorem failed_job_no_output (mimeRes : Except String String)
    (targetFormat outputPath : String) (engine : String → EngineOutcome)
    (unlinkErr : String → Option String) (fs : FS)
    (hfresh : fsLookup fs outputPath = none)
    (hunlink : unlinkErr outputPath = none) (e : String)
    (herr : (performConversion mimeRes targetFormat outputPath engine
      unlinkErr fs).2.2 = .error e) :
    fsLookup (performConversion mimeRes targetFormat outputPath engine
      unlinkErr fs).1 outputPath = none := by
  rcases mimeRes with e' | mime
  · simpa [performConversion] using hfresh
  · rcases hs : selectStrategy ((mime.splitOn "/").headD "") targetFormat with e' | strat
    · simp only [performConversion, hs] at herr ⊢
      simpa using hfresh
    · rcases he : engine strat with out | ⟨err, leftover⟩
      · simp only [performConversion, hs, he] at herr
        simp at herr
      · simp only [performConversion, hs, he]
        unfold fsUnlinkTry
        rw [hunlink]
        exact fsLookup_fsUnlink _ _

/-- Closed-form check of C3's amended statement: a LibreOffice failure that
left partial bytes at the output path, followed by a successful cleanup
unlink, ends with no file at that path. -/
theorem failed_job_no_output_witness :
    fsLookup (performConversion (.ok "audio/mpeg") "pdf" "o"
      (fun _ => .failure "engine crashed" (some [1, 2]))
      (fun _ => none) []).1 "o" = none :=
  failed_job_no_output (.ok "audio/mpeg") "pdf" "o"
    (fun _ => .failure "engine crashed" (some [1, 2])) (fun _ => none) []
    (by rfl) (by rfl) "engine crashed" (by rfl)

end ConvertJs

namespace ConverterJs

/-- One lowercase hex digit, as produced by node's `Buffer.toString` with
encoding `hex` (`0`-`9` then `a`-`f`). -/
def hexDigit (n : Nat) : Char :=
  if n < 10 then Char.ofNat (48 + n) else Char.ofNat (87 + n)

/-- Hex encoding of a byte sequence (`buf.toString` with encoding `hex`):
two lowercase digits per byte, high nibble first. -/
def toHex (bs : List Nat) : String :=
  String.mk ((bs.map (fun b => [hexDigit (b / 16), hexDigit (b % 16)])).join)

/-- Numeric value of one lowercase hex digit. -/
def fromHexDigit (c : Char) : Nat :=
  if 97 ≤ c.toNat then c.toNat - 87 else c.toNat - 48

/-- Hex decoding over a character list, two digits per byte. -/
def fromHexChars : List Char → List Nat
  | c1 :: c2 :: rest => (16 * fromHexDigit c1 + fromHexDigit c2) :: fromHexChars rest
  | _ => []

/-- Hex decoding of a string (`Buffer.from` with encoding `hex`). -/
def fromHex (s : String) : List Nat := fromHexChars s.data

theorem fromHexDigit_hexDigit : ∀ n, n < 16 → fromHexDigit (hexDigit n) = n := by
  decide

theorem fromHex_toHex (bs : List Nat) (h : ∀ b ∈ bs, b < 256) :
    fromHex (toHex bs) = bs := by
  induction bs with
  | nil => rfl
  | cons b rest ih =>
    have hb : b < 256 := h b (List.mem_cons_self b rest)
    have hrest : ∀ x ∈ rest, x < 256 := fun x hx => h x (List.mem_cons_of_mem b hx)
    have hstep : fromHex (toHex (b :: rest)) =
        (16 * fromHexDigit (hexDigit (b / 16)) + fromHexDigit (hexDigit (b % 16))) ::
          fromHex (toHex rest) := rfl
    rw [hstep, ih hrest, fromHexDigit_hexDigit _ (by omega),
      fromHexDigit_hexDigit _ (by omega)]
    congr 1
    omega

/-- Abstract model of the `aes-256-gcm` cipher obtained from node's `crypto`
module (an external capability, hence a parameter of the embedding).
`enc`/`dec`/`tag` take key, iv and data; decryption recomputes the
authentication tag over the ciphertext and the code's `decipher.final()`
throws when it differs from the tag supplied to `setAuthTag`. The contract
fields are the cipher properties the library documents: decryption inverts
encryption; bytes stay bytes; and for a fixed key and iv the tag is
collision-free on equal-length byte ciphertexts (the idealised form of GCM's
authenticity guarantee). -/
structure AEAD where
  enc : List Nat → List Nat → List Nat → List Nat
  dec : List Nat → List Nat → List Nat → List Nat
  tag : List Nat → List Nat → List Nat → List Nat
  dec_enc : ∀ key iv p, (∀ b ∈ p, b < 256) → dec key iv (enc key iv p) = p
  enc_bytes : ∀ key iv p, (∀ b ∈ p, b < 256) → ∀ b ∈ enc key iv p, b < 256
  tag_bytes : ∀ key iv c, (∀ b ∈ c, b < 256) → ∀ b ∈ tag key iv c, b < 256
  tag_inj : ∀ key iv c c', (∀ b ∈ c, b < 256) → (∀ b ∈ c', b < 256) →
    c.length = c'.length → tag key iv c = tag key iv c' → c = c'

/-- The `security` record returned by `secureWrite`
(converter.js lines 268–277): hex strings for iv, key and authTag. -/
structure SecurityInfo where
  iv : String
  key : String
  authTag : String

/-- The `secureWrite` method of `QuantumFileSystem`
(converter.js lines 253–278): encrypt the data, write `iv ++ ciphertext` as
the file content, and return the security record with the hex encoded iv,
key and authentication tag. The fresh `key` and `iv` produced by
`crypto.randomBytes(32)` / `randomBytes(16)` are parameters. Result: the
ciphertext file content and the security record. -/
def secureWrite (A : AEAD) (key iv fileData : List Nat) :
    List Nat × SecurityInfo :=
  (iv ++ A.enc key iv fileData,
    ⟨toHex iv, toHex key, toHex (A.tag key iv (A.enc key iv fileData))⟩)

/-- The `secureRead` method (converter.js lines 280–294): decode the hex
fields, skip the 16-byte iv prefix of the file (`encryptedData.slice(16)`),
and decrypt; the GCM decipher fails when the tag recomputed over the
ciphertext differs from the one passed to `setAuthTag`. -/
def secureRead (A : AEAD) (encryptedData : List Nat)
    (security : SecurityInfo) : Except String (List Nat) :=
  let iv := fromHex security.iv
  let key := fromHex security.key
  let authTag := fromHex security.authTag
  let body := encryptedData.drop 16
  if A.tag key iv body = authTag then .ok (A.dec key iv body)
  else .error "Unsupported state or unable to authenticate data"

/-- C4: for every byte sequence `x`, `secureRead` applied to the file and
security record produced by `secureWrite` returns exactly `x`; any
corruption of the ciphertext body that keeps its length (in particular any
single-byte change) and any change of the authentication tag makes
`secureRead` fail with the GCM authentication error instead of returning
data. -/
theorem secure_roundtrip_and_tamper (A : AEAD) (key iv x : List Nat)
    (hkey : ∀ b ∈ key, b < 256) (hiv : ∀ b ∈ iv, b < 256)
    (hx : ∀ b ∈ x, b < 256) (hivlen : iv.length = 16) :
    secureRead A (secureWrite A key iv x).1 (secureWrite A key iv x).2 = .ok x ∧
    (∀ body' : List Nat, (∀ b ∈ body', b < 256) →
      body'.length = (A.enc key iv x).length → body' ≠ A.enc key iv x →
      secureRead A (iv ++ body') (secureWrite A key iv x).2 =
        .error "Unsupported state or unable to authenticate data") ∧
    (∀ tag' : List Nat, (∀ b ∈ tag', b < 256) →
      tag' ≠ A.tag key iv (A.enc key iv x) →
      secureRead A (secureWrite A key iv x).1
        ⟨(secureWrite A key iv x).2.iv, (secureWrite A key iv x).2.key, toHex tag'⟩ =
        .error "Unsupported state or unable to authenticate data") := by
  have hc : ∀ b ∈ A.enc key iv x, b < 256 := A.enc_bytes key iv x hx
  have hdrop : ∀ body : List Nat, (iv ++ body).drop 16 = body := by
    intro body
    rw [← hivlen, List.drop_left]
  refine ⟨?_, ?_, ?_⟩
  · simp only [secureWrite, secureRead, hdrop, fromHex_toHex iv hiv,
      fromHex_toHex key hkey, fromHex_toHex _ (A.tag_bytes key iv _ hc)]
    rw [if_pos trivial, A.dec_enc key iv x hx]
  · intro body' hb' hlen hne
    simp only [secureWrite, secureRead, hdrop, fromHex_toHex iv hiv,
      fromHex_toHex key hkey, fromHex_toHex _ (A.tag_bytes key iv _ hc)]
    rw [if_neg]
    intro heq
    exact hne (A.tag_inj key iv body' (A.enc key iv x) hb' hc hlen heq)
  · intro tag' ht' hne
    simp only [secureWrite, secureRead, hdrop, fromHex_toHex iv hiv,
      fromHex_toHex key hkey, fromHex_toHex tag' ht']
    rw [if_neg]
    intro heq
    exact hne (Eq.symm heq)

/-- A small concrete cipher satisfying the AEAD contract, used to exercise
`secureWrite`/`secureRead` on concrete data: byte-wise addition of a
key-derived constant; the tag prefixes the ciphertext with a key byte. -/
def demoAEAD : AEAD where
  enc key _ p := p.map (fun b => (b + key.headD 7) % 256)
  dec key _ c := c.map (fun b => (b + 256 - key.headD 7 % 256) % 256)
  tag key _ c := (key.headD 7 % 256) :: c
  dec_enc := by
    intro key iv p hp
    induction p with
    | nil => rfl
    | cons a as ih =>
      have ha := hp a (List.mem_cons_self a as)
      have htail := ih (fun x hx => hp x (List.mem_cons_of_mem a hx))
      simp only [List.map_cons, List.cons.injEq] at htail ⊢
      exact ⟨by omega, htail⟩
  enc_bytes := by
    intro key iv p _ b hb
    simp only [List.mem_map] at hb
    obtain ⟨a, _, rfl⟩ := hb
    omega
  tag_bytes := by
    intro key iv c hc b hb
    rcases List.mem_cons.1 hb with rfl | hb
    · omega
    · exact hc b hb
  tag_inj := by
    intro key iv c c' _ _ _ h
    injection h

/-- Closed-form check of C4's round trip at concrete data: a two-byte
plaintext through the demo cipher with a 16-byte iv. -/
theorem secure_roundtrip_and_tamper_witness :
    secureRead demoAEAD
      (secureWrite demoAEAD [3] (List.replicate 16 0) [10, 200]).1
      (secureWrite demoAEAD [3] (List.replicate 16 0) [10, 200]).2 =
      .ok [10, 200] :=
  (secure_roundtrip_and_tamper demoAEAD [3] (List.replicate 16 0) [10, 200]
    (by decide) (by decide) (by decide) (by decide)).1

end ConverterJs

namespace CleanupJs

/-- A directory entry as seen by the age sweep: file name and `mtimeMs`
(cleanup.js lines 45–49 stat each listed file). -/
structure FileStat where
  name : String
  mtime : Nat
deriving DecidableEq

/-- Per-file result of one `cleanDirectory` sweep, as recorded by
`Promise.allSettled` (cleanup.js lines 44–55): the file was deleted, was
retained as not expired, or its deletion attempt was rejected with an
error. -/
inductive FileOutcome where
  | deleted
  | kept
  | failed (err : String)
deriving DecidableEq

/-- Milliseconds per hour, as in `maxAgeHours * 60 * 60 * 1000`. -/
def msPerHour : Nat := 60 * 60 * 1000

/-- The per-file async closure inside `cleanDirectory` (cleanup.js lines
45–54): stat the file; if `mtimeMs` is below the cutoff, unlink it (the
unlink may fail, modelled by `unlinkErr`), otherwise report it as not
expired. -/
def sweepOutcome (cutoff : Nat) (unlinkErr : String → Option String)
    (f : FileStat) : FileStat × FileOutcome :=
  if f.mtime < cutoff then
    match unlinkErr f.name with
    | none => (f, .deleted)
    | some e => (f, .failed e)
  else (f, .kept)

/-- The `cleanDirectory` method (cleanup.js lines 37–71) at the default
`maxAgeHours = 24`: compute the cutoff and settle every file's outcome
independently (`Promise.allSettled` never short-circuits). -/
def cleanDirectory (files : List FileStat) (now : Nat)
    (unlinkErr : String → Option String) : List (FileStat × FileOutcome) :=
  files.map (sweepOutcome (now - 24 * msPerHour) unlinkErr)

theorem sweepOutcome_fst (cutoff : Nat) (unlinkErr : String → Option String)
    (f : FileStat) : (sweepOutcome cutoff unlinkErr f).1 = f := by
  unfold sweepOutcome
  by_cases hm : f.mtime < cutoff
  · rw [if_pos hm]
    cases h : unlinkErr f.name <;> simp
  · rw [if_neg hm]

theorem mem_cleanDirectory_iff (files : List FileStat) (now : Nat)
    (unlinkErr : String → Option String) (f : FileStat) (hf : f ∈ files)
    (o : FileOutcome) :
    (f, o) ∈ cleanDirectory files now unlinkErr ↔
      sweepOutcome (now - 24 * msPerHour) unlinkErr f = (f, o) := by
  unfold cleanDirectory
  rw [List.mem_map]
  constructor
  · rintro ⟨a, _, heq⟩
    have ha : a = f := by
      have h1 := sweepOutcome_fst (now - 24 * msPerHour) unlinkErr a
      rw [heq] at h1
      exact h1.symm
    subst ha
    exact heq
  · intro h
    exact ⟨f, hf, h⟩

/-- C7: one age sweep at the default 24-hour maximum deletes exactly the
files whose age exceeds the maximum (mtime below the cutoff) and whose
unlink succeeds; every file not past the cutoff is retained; a failed
deletion is recorded per-file as its rejection reason; and no failure halts
the sweep — every listed file obtains an outcome, determined only by its own
age and its own unlink result. -/
theorem cleanDirectory_age_sweep (files : List FileStat) (now : Nat)
    (unlinkErr : String → Option String) :
    (∀ f ∈ files, ((f, FileOutcome.deleted) ∈ cleanDirectory files now unlinkErr ↔
      (f.mtime < now - 24 * msPerHour ∧ unlinkErr f.name = none))) ∧
    (∀ f ∈ files, ((f, FileOutcome.kept) ∈ cleanDirectory files now unlinkErr ↔
      ¬ f.mtime < now - 24 * msPerHour)) ∧
    (∀ f ∈ files, ∀ e, ((f, FileOutcome.failed e) ∈ cleanDirectory files now unlinkErr ↔
      (f.mtime < now - 24 * msPerHour ∧ unlinkErr f.name = some e))) ∧
    (cleanDirectory files now unlinkErr).length = files.length := by
  refine ⟨?_, ?_, ?_, by simp [cleanDirectory]⟩
  · intro f hf
    rw [mem_cleanDirectory_iff files now unlinkErr f hf]
    unfold sweepOutcome
    by_cases hm : f.mtime < now - 24 * msPerHour
    · rw [if_pos hm]
      cases h : unlinkErr f.name <;> simp [h, hm]
    · rw [if_neg hm]
      simp [hm]
  · intro f hf
    rw [mem_cleanDirectory_iff files now unlinkErr f hf]
    unfold sweepOutcome
    by_cases hm : f.mtime < now - 24 * msPerHour
    · rw [if_pos hm]
      cases h : unlinkErr f.name <;> simp [h, hm]
    · rw [if_neg hm]
      simp [hm]
  · intro f hf e
    rw [mem_cleanDirectory_iff files now unlinkErr f hf]
    unfold sweepOutcome
    by_cases hm : f.mtime < now - 24 * msPerHour
    · rw [if_pos hm]
      cases h : unlinkErr f.name <;> simp [h, hm]
    · rw [if_neg hm]
      simp [hm]

/-- Closed-form check of C7: with `now` past the cutoff, a stale file is
deleted while a fresh one is retained. -/
theorem cleanDirectory_age_sweep_witness :
    (⟨"old", 0⟩, FileOutcome.deleted) ∈
      cleanDirectory [⟨"old", 0⟩, ⟨"fresh", 99999999⟩] 100000000 (fun _ => none) :=
  ((cleanDirectory_age_sweep [⟨"old", 0⟩, ⟨"fresh", 99999999⟩] 100000000
    (fun _ => none)).1 ⟨"old", 0⟩ (by simp)).2 ⟨by norm_num [msPerHour], rfl⟩

end CleanupJs

namespace CleanupJs

/-- The module-scope imports of cleanup.js (lines 1–4). `crypto` is not among
them, so inside `secureWipe` the identifier `crypto` resolves to the global
WebCrypto object, which has no `randomBytes` method. -/
def cleanupImports : List String := ["fs/promises", "path", "worker_threads", "node-cron"]

/-- Whether the node `crypto` module is in scope in cleanup.js. -/
def cryptoImported : Bool := cleanupImports.contains "crypto"

/-- Result object of `secureWipe` (cleanup.js lines 88 and 90). -/
structure WipeResult where
  success : Bool
  error : Option String
  passes : Option Nat
  fileSize : Option Nat
deriving DecidableEq

/-- The overwrite-pattern construction (cleanup.js lines 77–81): null bytes,
ones, and a buffer filled with `crypto.randomBytes(1)[0]` — the last
expression throws unless the `crypto` module is in scope. `randByte` stands
for the random byte that call would produce. -/
def buildPatterns (fileSize randByte : Nat) : Except String (List (List Nat)) :=
  if cryptoImported then
    .ok [List.replicate fileSize 0x00, List.replicate fileSize 0xFF,
      List.replicate fileSize randByte]
  else .error "crypto.randomBytes is not a function"

/-- The `secureWipe` method (cleanup.js lines 73–92): stat the file, build
the three patterns, write `patterns[i % 3]` over the file `passes` times,
then unlink it; any exception along the way is caught and returned as
`{success: false, error}` with no further action. -/
def secureWipe (fs : ConvertJs.FS) (filePath : String) (randByte passes : Nat) :
    ConvertJs.FS × WipeResult :=
  match ConvertJs.fsLookup fs filePath with
  | none => (fs, ⟨false, some "ENOENT", none, none⟩)
  | some content =>
    match buildPatterns content.length randByte with
    | .error e => (fs, ⟨false, some e, none, none⟩)
    | .ok patterns =>
      let fs1 := (List.range passes).foldl
        (fun acc i => ConvertJs.fsWrite acc filePath
          (patterns.getD (i % patterns.length) [])) fs
      (ConvertJs.fsUnlink fs1 filePath, ⟨true, none, some passes, some content.length⟩)

theorem buildPatterns_always_fails (fileSize randByte : Nat) :
    buildPatterns fileSize randByte = .error "crypto.randomBytes is not a function" :=
  rfl

/-- C5 (evaluating the code at its failing input): since cleanup.js never
imports `crypto`, the pattern construction throws on every call, so
`secureWipe` always returns `success: false` and leaves the file system
untouched — the file's bytes are never overwritten, and the file is never
unlinked. The claimed behaviour (overwrite the full length three times,
then unlink; abort without unlinking only if an overwrite pass fails) never
happens on any input. -/
theorem secureWipe_never_wipes (fs : ConvertJs.FS) (filePath : String)
    (randByte passes : Nat) :
    (secureWipe fs filePath randByte passes).2.success = false ∧
    (secureWipe fs filePath randByte passes).1 = fs := by
  unfold secureWipe
  cases h : ConvertJs.fsLookup fs filePath with
  | none => exact ⟨rfl, rfl⟩
  | some content =>
    simp [buildPatterns_always_fails]

/-- A directory entry as seen by `deduplicateFiles`: name in readdir order,
content (standing in for its digest — `calculateQuantumHash` is collision
free in the model, so equal digest means equal content), and `mtimeMs`. -/
structure DirEntry where
  name : String
  content : List Nat
  mtime : Nat
deriving DecidableEq

/-- The scan loop of `deduplicateFiles` (cleanup.js lines 235–248): walk the
listing in order; the first file of each digest is recorded in `fileHashes`
(the `seen` accumulator), and every later file whose digest was already seen
is pushed onto `duplicates` as `(file, original)`. -/
def scanDuplicates : List DirEntry → List (List Nat × String) → List (String × String)
  | [], _ => []
  | e :: rest, seen =>
    match seen.find? (fun p => p.1 == e.content) with
    | some p => (e.name, p.2) :: scanDuplicates rest seen
    | none => scanDuplicates rest ((e.content, e.name) :: seen)

/-- The `mtimeMs` of the named file in the listing (`fs.stat` at cleanup.js
lines 253–256). -/
def mtimeOf (entries : List DirEntry) (n : String) : Nat :=
  ((entries.find? (fun e => e.name == n)).map (·.mtime)).getD 0

/-- The deletion decision of `deduplicateFiles` (cleanup.js lines 250–266):
for each `(duplicate, original)` pair, keep whichever of the two has the
smaller `mtimeMs` and delete the other; returns the list of deleted names
(`Promise.allSettled` makes each unlink independent). -/
def dedupToDelete (entries : List DirEntry) : List String :=
  (scanDuplicates entries []).map (fun d =>
    if mtimeOf entries d.2 < mtimeOf entries d.1 then d.1 else d.2)

/-- C6 counterexample: three files with identical content, listed in the
order a (mtime 3), b (mtime 1), c (mtime 2). Every duplicate is compared
only against the first-listed holder `a` of the digest, so the sweep deletes
`a` twice and retains both `b` and `c` — although `b` and `c` are a pair
with identical content and different modification times, of which the claim
requires the newer (`c`) to be deleted. -/
theorem dedup_pair_counterexample :
    dedupToDelete [⟨"a", [7], 3⟩, ⟨"b", [7], 1⟩, ⟨"c", [7], 2⟩] = ["a", "a"] ∧
    (⟨"b", [7], 1⟩ : DirEntry).content = (⟨"c", [7], 2⟩ : DirEntry).content ∧
    (⟨"b", [7], 1⟩ : DirEntry).mtime ≠ (⟨"c", [7], 2⟩ : DirEntry).mtime ∧
    "b" ∉ dedupToDelete [⟨"a", [7], 3⟩, ⟨"b", [7], 1⟩, ⟨"c", [7], 2⟩] ∧
    "c" ∉ dedupToDelete [⟨"a", [7], 3⟩, ⟨"b", [7], 1⟩, ⟨"c", [7], 2⟩] := by
  exact ⟨rfl, rfl, by decide, by decide, by decide⟩

/-- C6 (amended): each duplicate is deduplicated only against the first file
in listing order holding its digest; consequently, when exactly two files of
the directory share the content and their modification times differ, one
sweep deletes exactly the newer of the two and retains the older (with three
or more files of one digest, several duplicates can survive one sweep). -/
theorem dedup_two_files (a b : DirEntry) (hname : a.name ≠ b.name)
    (hcontent : a.content = b.content) (hmtime : a.mtime ≠ b.mtime) :
    dedupToDelete [a, b] = [if a.mtime < b.mtime then b.name else a.name] := by
  have hbeq : (a.content == b.content) = true := by
    rw [hcontent]; exact beq_self_eq_true b.content
  have hnameff : (a.name == b.name) = false := beq_eq_false_iff_ne.mpr hname
  have hscan : scanDuplicates [a, b] [] = [(b.name, a.name)] := by
    simp [scanDuplicates, hbeq]
  have hma : mtimeOf [a, b] a.name = a.mtime := by
    simp [mtimeOf, List.find?]
  have hmb : mtimeOf [a, b] b.name = b.mtime := by
    simp [mtimeOf, List.find?, hnameff]
  simp only [dedupToDelete, hscan, List.map_cons, List.map_nil, hma, hmb]

/-- Closed-form check of C6's amended statement: of two identical files, the
newer (`y`, mtime 9) is deleted and the older (`x`, mtime 5) survives. -/
theorem dedup_two_files_witness :
    dedupToDelete [⟨"x", [1], 5⟩, ⟨"y", [1], 9⟩] = ["y"] := by
  have h := dedup_two_files ⟨"x", [1], 5⟩ ⟨"y", [1], 9⟩ (by decide) rfl (by decide)
  simpa using h

end CleanupJs

namespace CleanupJs

/-- Stable ascending insertion, modelling one step of
`Array.prototype.sort` with the comparator
`(a, b) => a.stats.mtimeMs - b.stats.mtimeMs` (cleanup.js line 152). -/
def insertByMtime (f : FileStat) : List FileStat → List FileStat
  | [] => [f]
  | g :: rest =>
    if f.mtime ≤ g.mtime then f :: g :: rest else g :: insertByMtime f rest

/-- Sorting the listing by `mtimeMs` ascending. -/
def sortByMtime : List FileStat → List FileStat
  | [] => []
  | f :: rest => insertByMtime f (sortByMtime rest)

/-- The `emergencyCleanup` method (cleanup.js lines 139–159): list the
uploads temp directory, sort by `mtimeMs` ascending, and unlink the first
`Math.floor(n * 0.5)` files; returns the deleted names. -/
def emergencyCleanup (files : List FileStat) : List String :=
  ((sortByMtime files).take (files.length / 2)).map (·.name)

/-- Modelled from the spec: the behaviour claim C8 describes (spec section
4.6, emergency reclaim), which is nowhere in cleanup.js — walk the
candidates oldest-first, each paired with its size, deleting while the
simulated free space is still below the threshold and stopping early as
soon as deletion has cleared it. -/
def claimedEmergencyReclaim : List (FileStat × Nat) → Nat → Nat → List String
  | [], _, _ => []
  | f :: rest, free, threshold =>
    if threshold ≤ free then []
    else f.1.name :: claimedEmergencyReclaim rest (free + f.2) threshold

/-- C8 counterexample: four files of 100 bytes, free space 950 against a
threshold of 1000, candidates already oldest-first. The claimed policy stops
after deleting the single oldest file (free space reaches 1050); the code
has no notion of free space and deletes the oldest two — it never stops
early once pressure clears. -/
theorem emergency_no_early_stop :
    claimedEmergencyReclaim
      [(⟨"a", 1⟩, 100), (⟨"b", 2⟩, 100), (⟨"c", 3⟩, 100), (⟨"d", 4⟩, 100)]
      950 1000 = ["a"] ∧
    emergencyCleanup [⟨"a", 1⟩, ⟨"b", 2⟩, ⟨"c", 3⟩, ⟨"d", 4⟩] = ["a", "b"] := by
  exact ⟨rfl, rfl⟩

theorem mem_insertByMtime (b f : FileStat) (l : List FileStat) :
    b ∈ insertByMtime f l ↔ b = f ∨ b ∈ l := by
  induction l with
  | nil => simp [insertByMtime]
  | cons g rest ih =>
    by_cases h : f.mtime ≤ g.mtime
    · simp [insertByMtime, h]
    · simp only [insertByMtime, if_neg h, List.mem_cons, ih]
      tauto

theorem sorted_insertByMtime (f : FileStat) (l : List FileStat)
    (h : l.Pairwise (fun a b => a.mtime ≤ b.mtime)) :
    (insertByMtime f l).Pairwise (fun a b => a.mtime ≤ b.mtime) := by
  induction l with
  | nil => simp [insertByMtime]
  | cons g rest ih =>
    obtain ⟨hg, hrest⟩ := List.pairwise_cons.1 h
    by_cases hle : f.mtime ≤ g.mtime
    · rw [insertByMtime, if_pos hle]
      refine List.pairwise_cons.2 ⟨?_, h⟩
      intro b hb
      rcases List.mem_cons.1 hb with rfl | hb
      · exact hle
      · exact Nat.le_trans hle (hg b hb)
    · rw [insertByMtime, if_neg hle]
      refine List.pairwise_cons.2 ⟨?_, ih hrest⟩
      intro b hb
      rcases (mem_insertByMtime b f rest).1 hb with rfl | hb
      · omega
      · exact hg b hb

theorem sorted_sortByMtime (l : List FileStat) :
    (sortByMtime l).Pairwise (fun a b => a.mtime ≤ b.mtime) := by
  induction l with
  | nil => exact List.Pairwise.nil
  | cons f rest ih => exact sorted_insertByMtime f (sortByMtime rest) ih

theorem length_insertByMtime (f : FileStat) (l : List FileStat) :
    (insertByMtime f l).length = l.length + 1 := by
  induction l with
  | nil => rfl
  | cons g rest ih =>
    by_cases h : f.mtime ≤ g.mtime
    · simp [insertByMtime, h]
    · simp [insertByMtime, h, ih]

theorem length_sortByMtime (l : List FileStat) :
    (sortByMtime l).length = l.length := by
  induction l with
  | nil => rfl
  | cons f rest ih => simp [sortByMtime, length_insertByMtime, ih]

/-- C8 (amended): `emergencyCleanup` never consults free space. It sorts the
uploads listing by `mtimeMs` ascending and unconditionally deletes the
oldest `⌊n/2⌋` files — every deleted file is at least as old as every
retained file — with no early stop once pressure would have cleared (and it
always targets the uploads directory, whichever directory tripped the
threshold). -/
theorem emergencyCleanup_oldest_half (files : List FileStat) :
    (emergencyCleanup files).length = files.length / 2 ∧
    ∀ d ∈ (sortByMtime files).take (files.length / 2),
      ∀ k ∈ (sortByMtime files).drop (files.length / 2), d.mtime ≤ k.mtime := by
  constructor
  · have hlen : (sortByMtime files).length = files.length := length_sortByMtime files
    simp [emergencyCleanup, hlen]
    omega
  · have hp := sorted_sortByMtime files
    rw [← List.take_append_drop (files.length / 2) (sortByMtime files)] at hp
    exact (List.pairwise_append.1 hp).2.2

/-- Closed-form check of C8's amended statement: of three files, exactly
`⌊3/2⌋ = 1` file is deleted. -/
theorem emergencyCleanup_oldest_half_witness :
    (emergencyCleanup [⟨"a", 5⟩, ⟨"b", 2⟩, ⟨"c", 9⟩]).length = 1 := by
  have h := (emergencyCleanup_oldest_half [⟨"a", 5⟩, ⟨"b", 2⟩, ⟨"c", 9⟩]).1
  simpa using h

end CleanupJs

namespace ServiceJs

/-- The analysis record produced by `FileAnalyzer.deepInspect` (part_001
lines 13–30); only its presence matters for `convertSingleFile`'s control
flow. -/
structure Analysis where
  mimeType : String
  size : Nat
deriving DecidableEq

/-- Result record of `ConversionCore.convertFile` (part_001 lines 298–357),
restricted to the fields `convertSingleFile` propagates. -/
structure CoreResult where
  outputPath : String
  format : String
  size : Nat
deriving DecidableEq

/-- The object `convertSingleFile` returns (part_001 lines 665–679): either
the success spread with `success: true`, or the catch block's
`{success: false, error, filePath, targetFormat}`. -/
structure SingleFileOutcome where
  success : Bool
  error : Option String
  filePath : Option String
  targetFormat : String
  size : Option Nat
deriving DecidableEq

/-- `ConversionService.convertSingleFile` (part_001 lines 646–680). The whole
body sits in a single try/catch; the three awaited fallible stages — mime
detection via `fileTypeFromFile` (whose undefined result makes the
destructuring throw), `FileAnalyzer.deepInspect`, and
`ConversionCore.convertFile` — are parameters, and a failure of any of them
lands in the catch block, which returns a `success: false` object instead of
re-throwing. -/
def convertSingleFile (filePath targetFormat : String)
    (mimeRes : Except String String) (analysisRes : Except String Analysis)
    (coreRes : Except String CoreResult) : SingleFileOutcome :=
  match mimeRes with
  | .error e => ⟨false, some e, some filePath, targetFormat, none⟩
  | .ok _ =>
    match analysisRes with
    | .error e => ⟨false, some e, some filePath, targetFormat, none⟩
    | .ok _ =>
      match coreRes with
      | .error e => ⟨false, some e, some filePath, targetFormat, none⟩
      | .ok r => ⟨true, none, none, targetFormat, some r.size⟩

/-- C10: `convertSingleFile` is total — no combination of stage outcomes
makes it propagate an exception. It either returns `success: true` (all
stages succeeded), or `success: false` carrying some error message together
with the input path and the requested target format. -/
theorem convertSingleFile_never_throws (filePath targetFormat : String)
    (mimeRes : Except String String) (analysisRes : Except String Analysis)
    (coreRes : Except String CoreResult) :
    ((convertSingleFile filePath targetFormat mimeRes analysisRes coreRes).success = true ∧
      (convertSingleFile filePath targetFormat mimeRes analysisRes coreRes).error = none) ∨
    ((convertSingleFile filePath targetFormat mimeRes analysisRes coreRes).success = false ∧
      (∃ e, (convertSingleFile filePath targetFormat mimeRes analysisRes coreRes).error = some e) ∧
      (convertSingleFile filePath targetFormat mimeRes analysisRes coreRes).filePath = some filePath ∧
      (convertSingleFile filePath targetFormat mimeRes analysisRes coreRes).targetFormat = targetFormat) := by
  rcases mimeRes with e | mime
  · exact Or.inr ⟨rfl, ⟨e, rfl⟩, rfl, rfl⟩
  · rcases analysisRes with e | analysis
    · exact Or.inr ⟨rfl, ⟨e, rfl⟩, rfl, rfl⟩
    · rcases coreRes with e | r
      · exact Or.inr ⟨rfl, ⟨e, rfl⟩, rfl, rfl⟩
      · exact Or.inl ⟨rfl, rfl⟩

end ServiceJs
